import Mathlib

/-!
# Shallow embedding of `core/src/types/ethereum_events.rs`

This file embeds the Namada Ethereum-event data model — the `Uint` 256-bit
integer, the `EthAddress` 20-byte Ethereum address, the payload records and the
`EthereumEvent` union, together with their canonical (Borsh) byte encoding,
hashing, parsing and ordering — and proves the specified properties about them.

Machine integers are modelled as `Nat` together with explicit bound
(well-formedness) predicates; byte strings are `List Nat` with every element
below 256.  External collaborator types that the source file only consumes
(`Amount`, `Address`, `KeccakHash`, `Hash`, the storage error type, the SHA-256
digest, and the behaviour of the third-party `ethereum_types`/`borsh` crates)
are modelled from the specification text, and each such definition is marked
`Modelled from the spec:` in its doc comment.
-/

namespace EthereumEvents

/-- A byte: a natural number below 256. -/
def IsByte (n : Nat) : Prop := n < 256

/-- All elements of a list are bytes. -/
def BytesWf (l : List Nat) : Prop := ∀ b ∈ l, IsByte b

instance (n : Nat) : Decidable (IsByte n) := by unfold IsByte; infer_instance

instance (l : List Nat) : Decidable (BytesWf l) := by unfold BytesWf; exact List.decidableBAll _ l

/-- Little-endian 4-byte encoding of a 32-bit value (Borsh `u32`). -/
def u32LE (n : Nat) : List Nat :=
  [n % 256, n / 256 % 256, n / 256 ^ 2 % 256, n / 256 ^ 3 % 256]

/-- Little-endian 8-byte encoding of a 64-bit value (Borsh `u64`). -/
def u64LE (n : Nat) : List Nat :=
  [n % 256, n / 256 % 256, n / 256 ^ 2 % 256, n / 256 ^ 3 % 256,
   n / 256 ^ 4 % 256, n / 256 ^ 5 % 256, n / 256 ^ 6 % 256, n / 256 ^ 7 % 256]

theorem u32LE_length (n : Nat) : (u32LE n).length = 4 := rfl

theorem u64LE_length (n : Nat) : (u64LE n).length = 8 := rfl

theorem u32LE_wf (n : Nat) : BytesWf (u32LE n) := by
  simp [u32LE, BytesWf, IsByte]
  omega

theorem u64LE_wf (n : Nat) : BytesWf (u64LE n) := by
  simp [u64LE, BytesWf, IsByte]
  omega

/-!
## `Uint`: the 256-bit unsigned integer

Source: `pub struct Uint(pub [u64; 4]);` — four 64-bit words in little-endian
word order (word 0 least significant), mirroring `ethabi::Uint` (`U256`).
-/

/-- Source type `Uint`: four `u64` words, little-endian word order. -/
structure Uint where
  w0 : Nat
  w1 : Nat
  w2 : Nat
  w3 : Nat
deriving DecidableEq, Repr

/-- Each word fits in 64 bits (the `u64` invariant of the Rust representation). -/
def Uint.Wf (u : Uint) : Prop :=
  u.w0 < 2 ^ 64 ∧ u.w1 < 2 ^ 64 ∧ u.w2 < 2 ^ 64 ∧ u.w3 < 2 ^ 64

instance (u : Uint) : Decidable u.Wf := by unfold Uint.Wf; infer_instance

/-- The 256-bit numeric value: Σ word i · 2^(64·i). -/
def Uint.value (u : Uint) : Nat :=
  u.w0 + u.w1 * 2 ^ 64 + u.w2 * 2 ^ 128 + u.w3 * 2 ^ 192

/-- The numeric value obtained by reading the stored word tuple as if word 0
were MOST significant; the derived lexicographic order agrees with this
interpretation, not with `Uint.value`. -/
def Uint.revValue (u : Uint) : Nat :=
  u.w0 * 2 ^ 192 + u.w1 * 2 ^ 128 + u.w2 * 2 ^ 64 + u.w3

/-- The `#[derive(Ord)]` comparison on `Uint`: Rust compares the inner
`[u64; 4]` array lexicographically from index 0 upward. -/
def Uint.cmp (a b : Uint) : Ordering :=
  (compare a.w0 b.w0).then ((compare a.w1 b.w1).then
    ((compare a.w2 b.w2).then (compare a.w3 b.w3)))

/-- Relation: `a < b` under the derived ordering. -/
def Uint.ltOrd (a b : Uint) : Prop := a.cmp b = Ordering.lt

instance (a b : Uint) : Decidable (a.ltOrd b) := by unfold Uint.ltOrd; infer_instance

/-- Source conversion `impl From<u64> for Uint` (via `ethUint::from`): the value
is zero-extended into word 0.  The third-party `U256::from(u64)` places the
value in word 0 and zeroes words 1–3. -/
def Uint.fromU64 (n : Nat) : Uint := ⟨n % 2 ^ 64, 0, 0, 0⟩

/-- Source method `Uint::to_bytes`: `ethUint::from(self).to_little_endian`.
The third-party `U256::to_little_endian` writes the four words in order,
each as 8 little-endian bytes, yielding the 32-byte little-endian form. -/
def Uint.to_bytes (u : Uint) : List Nat :=
  u64LE u.w0 ++ u64LE u.w1 ++ u64LE u.w2 ++ u64LE u.w3

theorem Uint.to_bytes_length (u : Uint) : u.to_bytes.length = 32 := rfl

/-!
## `EthAddress`: 20-byte Ethereum address

Source: `pub struct EthAddress(pub [u8; 20]);` with
`to_canonical` printing the `Debug` form of `ethereum_types::Address`
(lower-case `0x`-prefixed hex) and `FromStr` parsing via
`ethereum_types::Address::from_str`.
Strings are modelled as their UTF-8 byte lists (all characters involved are
ASCII, so one character is one byte).
-/

/-- Source type `EthAddress`: 20 raw bytes. -/
structure EthAddress where
  bytes : List Nat
deriving DecidableEq, Repr

/-- Exactly 20 bytes, each below 256 (the `[u8; 20]` invariant). -/
def EthAddress.Wf (a : EthAddress) : Prop :=
  a.bytes.length = 20 ∧ BytesWf a.bytes

instance (a : EthAddress) : Decidable a.Wf := by unfold EthAddress.Wf; infer_instance

/-- Value of an ASCII hex digit (`0-9`, `a-f`, `A-F`), or `none`. -/
def hexVal (c : Nat) : Option Nat :=
  if 48 ≤ c ∧ c ≤ 57 then some (c - 48)
  else if 97 ≤ c ∧ c ≤ 102 then some (c - 87)
  else if 65 ≤ c ∧ c ≤ 70 then some (c - 55)
  else none

/-- Lower-case hex digit (as an ASCII byte) for a value below 16. -/
def hexDigitLower (n : Nat) : Nat :=
  if n < 10 then 48 + n else 87 + n

/-- Lower-case two-digit hex form of one byte. -/
def byteToHexLower (b : Nat) : List Nat :=
  [hexDigitLower (b / 16), hexDigitLower (b % 16)]

/-- Decode a list of ASCII hex digits, two characters per byte; fails on any
non-hex character or odd length. -/
def hexPairsToBytes : List Nat → Option (List Nat)
  | [] => some []
  | c1 :: c2 :: rest => do
    let hi ← hexVal c1
    let lo ← hexVal c2
    let tail ← hexPairsToBytes rest
    pure ((hi * 16 + lo) :: tail)
  | [_] => none

/-- ASCII lower-casing of one byte. -/
def asciiLower (c : Nat) : Nat :=
  if 65 ≤ c ∧ c ≤ 90 then c + 32 else c

/-- The UTF-8 bytes of a Lean string literal (all strings in this file are
ASCII, where code points and UTF-8 bytes coincide). -/
def strBytes (s : String) : List Nat := s.data.map Char.toNat

/-- Source method `EthAddress::to_canonical`: the `Debug` form of the
corresponding `ethereum_types::Address`, i.e. `"0x"` followed by the 40
lower-case hex digits of the 20 bytes. -/
def EthAddress.to_canonical (a : EthAddress) : List Nat :=
  48 :: 120 :: (a.bytes.map byteToHexLower).flatten

/-- Source parser `FromStr for EthAddress`, delegating to
`ethereum_types::Address::from_str`.  Modelled from the spec: the third-party
parser is not in the sources; per the spec it accepts `"0x"`-prefixed
40-hex-digit strings in lower case or mixed (checksummed) case and rejects any
string that is not valid hex of the correct length.  Failure is an explicit
error value (`none`), never a panic. -/
def EthAddress.fromStr (s : List Nat) : Option EthAddress :=
  match s with
  | 48 :: 120 :: rest =>
    if rest.length = 40 then
      (hexPairsToBytes rest).map EthAddress.mk
    else none
  | _ => none

/-- The `#[derive(Ord)]` comparison on `EthAddress`: lexicographic over the
20 bytes. -/
def bytesCmp : List Nat → List Nat → Ordering
  | [], [] => Ordering.eq
  | [], _ :: _ => Ordering.lt
  | _ :: _, [] => Ordering.gt
  | a :: as, b :: bs => (compare a b).then (bytesCmp as bs)

/-- Modelled from the spec: the storage error type
(`crate::types::storage::Error`, not among the sources); the spec requires a
distinct "bad key segment" error kind carrying the offending string. -/
inductive StorageError where
  | ParseKeySeg (s : List Nat)
deriving DecidableEq, Repr

/-- Source method `KeySeg::parse for EthAddress`: parse with `from_str` and
map any failure to `Error::ParseKeySeg` carrying the input string. -/
def EthAddress.keySegParse (s : List Nat) : Except StorageError EthAddress :=
  match EthAddress.fromStr s with
  | some a => Except.ok a
  | none => Except.error (StorageError.ParseKeySeg s)

/-- Source method `KeySeg::raw for EthAddress`: the canonical form. -/
def EthAddress.raw (a : EthAddress) : List Nat := a.to_canonical

/-!
## External collaborator types

`Amount`, `Address` and `KeccakHash` come from other modules of the crate that
are not among the sources; the spec treats them as opaque value types with a
canonical byte encoding, so they are modelled from the spec.
-/

/-- Modelled from the spec: the external token `Amount`
(`crate::types::token::Amount`, not among the sources) — an opaque comparable,
addable value backed by a 64-bit quantity, Borsh-encoded as 8 little-endian
bytes. -/
structure Amount where
  micro : Nat
deriving DecidableEq, Repr

/-- The 64-bit invariant of `Amount`. -/
def Amount.Wf (a : Amount) : Prop := a.micro < 2 ^ 64

instance (a : Amount) : Decidable a.Wf := by unfold Amount.Wf; infer_instance

/-- Modelled from the spec: the native `Address`
(`crate::types::address::Address`, not among the sources) — an opaque value
type whose canonical Borsh encoding is its textual form as a length-prefixed
byte string. -/
structure Address where
  repr : List Nat
deriving DecidableEq, Repr

/-- The address text is a byte string short enough for a `u32` length prefix. -/
def Address.Wf (a : Address) : Prop := BytesWf a.repr ∧ a.repr.length < 2 ^ 32

instance (a : Address) : Decidable a.Wf := by unfold Address.Wf; infer_instance

/-- Modelled from the spec: `KeccakHash` (`crate::types::keccak::KeccakHash`,
not among the sources) — a 32-byte hash value, Borsh-encoded as its raw
bytes. -/
structure KeccakHash where
  bytes : List Nat
deriving DecidableEq, Repr

/-- Exactly 32 bytes, each below 256. -/
def KeccakHash.Wf (k : KeccakHash) : Prop :=
  k.bytes.length = 32 ∧ BytesWf k.bytes

instance (k : KeccakHash) : Decidable k.Wf := by unfold KeccakHash.Wf; infer_instance

/-!
## Payload records and the event union

Source: `TransferToNamada`, `TransferToEthereum`, `TokenWhitelist`,
`EthereumEvent` with its six variants in declaration order.
Strings (`name` fields) are modelled as their UTF-8 byte lists.
-/

/-- Source record `TransferToNamada`: amount, asset, receiver. -/
structure TransferToNamada where
  amount : Amount
  asset : EthAddress
  receiver : Address
deriving DecidableEq, Repr

def TransferToNamada.Wf (t : TransferToNamada) : Prop :=
  t.amount.Wf ∧ t.asset.Wf ∧ t.receiver.Wf

instance (t : TransferToNamada) : Decidable t.Wf := by
  unfold TransferToNamada.Wf; infer_instance

/-- Source record `TransferToEthereum`: amount, asset, receiver, gas_amount,
gas_payer, in declaration order. -/
structure TransferToEthereum where
  amount : Amount
  asset : EthAddress
  receiver : EthAddress
  gas_amount : Amount
  gas_payer : Address
deriving DecidableEq, Repr

def TransferToEthereum.Wf (t : TransferToEthereum) : Prop :=
  t.amount.Wf ∧ t.asset.Wf ∧ t.receiver.Wf ∧ t.gas_amount.Wf ∧ t.gas_payer.Wf

instance (t : TransferToEthereum) : Decidable t.Wf := by
  unfold TransferToEthereum.Wf; infer_instance

/-- Source record `TokenWhitelist`: token, cap. -/
structure TokenWhitelist where
  token : EthAddress
  cap : Amount
deriving DecidableEq, Repr

def TokenWhitelist.Wf (w : TokenWhitelist) : Prop := w.token.Wf ∧ w.cap.Wf

instance (w : TokenWhitelist) : Decidable w.Wf := by
  unfold TokenWhitelist.Wf; infer_instance

/-- A string field: its UTF-8 bytes, short enough for a `u32` length prefix. -/
def StringWf (s : List Nat) : Prop := BytesWf s ∧ s.length < 2 ^ 32

instance (s : List Nat) : Decidable (StringWf s) := by unfold StringWf; infer_instance

/-- Source union `EthereumEvent`: six variants in declaration order
(`TransfersToNamada`, `TransfersToEthereum`, `ValidatorSetUpdate`,
`NewContract`, `UpgradedContract`, `UpdateBridgeWhitelist`), each with its
fields in declaration order. -/
inductive EthereumEvent where
  | TransfersToNamada (nonce : Uint) (transfers : List TransferToNamada)
  | TransfersToEthereum (nonce : Uint) (transfers : List TransferToEthereum)
  | ValidatorSetUpdate (nonce : Uint) (bridge_validator_hash : KeccakHash)
      (governance_validator_hash : KeccakHash)
  | NewContract (name : List Nat) (address : EthAddress)
  | UpgradedContract (name : List Nat) (address : EthAddress)
  | UpdateBridgeWhitelist (nonce : Uint) (whitelist : List TokenWhitelist)
deriving DecidableEq, Repr

/-- Well-formedness of an event: every embedded machine integer, byte string
and sequence respects its width bounds. -/
def EthereumEvent.Wf : EthereumEvent → Prop
  | .TransfersToNamada nonce transfers =>
    nonce.Wf ∧ (∀ t ∈ transfers, t.Wf) ∧ transfers.length < 2 ^ 32
  | .TransfersToEthereum nonce transfers =>
    nonce.Wf ∧ (∀ t ∈ transfers, t.Wf) ∧ transfers.length < 2 ^ 32
  | .ValidatorSetUpdate nonce bvh gvh => nonce.Wf ∧ bvh.Wf ∧ gvh.Wf
  | .NewContract name address => StringWf name ∧ address.Wf
  | .UpgradedContract name address => StringWf name ∧ address.Wf
  | .UpdateBridgeWhitelist nonce whitelist =>
    nonce.Wf ∧ (∀ w ∈ whitelist, w.Wf) ∧ whitelist.length < 2 ^ 32

instance (e : EthereumEvent) : Decidable e.Wf := by
  unfold EthereumEvent.Wf
  cases e <;> exact instDecidableAnd

/-- The variant tag, in declaration order, as Borsh writes it. -/
def EthereumEvent.tag : EthereumEvent → Nat
  | .TransfersToNamada .. => 0
  | .TransfersToEthereum .. => 1
  | .ValidatorSetUpdate .. => 2
  | .NewContract .. => 3
  | .UpgradedContract .. => 4
  | .UpdateBridgeWhitelist .. => 5

/-!
## Canonical (Borsh) encoding

Source: the `BorshSerialize` derive on the payload records and on
`EthereumEvent`; `EthereumEvent::hash` digests `self.try_to_vec()`.
Modelled from the spec: the Borsh crate itself is third-party; per the spec
the canonical encoding is the variant tag followed by the fields in
declaration order, sequences as a `u32` little-endian length prefix followed
by the elements in their given order, strings as a `u32` length prefix
followed by their UTF-8 bytes, and `Uint` as its four `u64` words in order,
i.e. its 32-byte little-endian form.
-/

/-- Borsh encoding of `Uint` (`[u64; 4]`): the four words, each as 8
little-endian bytes. -/
def Uint.borsh (u : Uint) : List Nat :=
  u64LE u.w0 ++ u64LE u.w1 ++ u64LE u.w2 ++ u64LE u.w3

/-- Borsh encoding of `EthAddress` (`[u8; 20]`): the raw bytes. -/
def EthAddress.borsh (a : EthAddress) : List Nat := a.bytes

/-- Borsh encoding of `Amount`: 8 little-endian bytes. -/
def Amount.borsh (a : Amount) : List Nat := u64LE a.micro

/-- Borsh encoding of `Address`: its textual form, length-prefixed. -/
def Address.borsh (a : Address) : List Nat := u32LE a.repr.length ++ a.repr

/-- Borsh encoding of `KeccakHash` (`[u8; 32]`): the raw bytes. -/
def KeccakHash.borsh (k : KeccakHash) : List Nat := k.bytes

/-- Borsh encoding of a string field: `u32` byte length, then the UTF-8
bytes. -/
def stringBorsh (s : List Nat) : List Nat := u32LE s.length ++ s

/-- Borsh encoding of a `Vec`: `u32` element count, then the elements in
their given order (never re-sorted). -/
def vecBorsh (enc : α → List Nat) (xs : List α) : List Nat :=
  u32LE xs.length ++ (xs.map enc).flatten

/-- Borsh encoding of `TransferToNamada`: fields in declaration order. -/
def TransferToNamada.borsh (t : TransferToNamada) : List Nat :=
  t.amount.borsh ++ t.asset.borsh ++ t.receiver.borsh

/-- Borsh encoding of `TransferToEthereum`: fields in declaration order. -/
def TransferToEthereum.borsh (t : TransferToEthereum) : List Nat :=
  t.amount.borsh ++ t.asset.borsh ++ t.receiver.borsh ++
    t.gas_amount.borsh ++ t.gas_payer.borsh

/-- Borsh encoding of `TokenWhitelist`: fields in declaration order. -/
def TokenWhitelist.borsh (w : TokenWhitelist) : List Nat :=
  w.token.borsh ++ w.cap.borsh

/-- Borsh encoding of `EthereumEvent` (`try_to_vec`): one tag byte (the
variant index in declaration order) followed by the variant's fields in
declaration order. -/
def EthereumEvent.borsh : EthereumEvent → List Nat
  | .TransfersToNamada nonce transfers =>
    0 :: (nonce.borsh ++ vecBorsh TransferToNamada.borsh transfers)
  | .TransfersToEthereum nonce transfers =>
    1 :: (nonce.borsh ++ vecBorsh TransferToEthereum.borsh transfers)
  | .ValidatorSetUpdate nonce bvh gvh =>
    2 :: (nonce.borsh ++ bvh.borsh ++ gvh.borsh)
  | .NewContract name address =>
    3 :: (stringBorsh name ++ address.borsh)
  | .UpgradedContract name address =>
    4 :: (stringBorsh name ++ address.borsh)
  | .UpdateBridgeWhitelist nonce whitelist =>
    5 :: (nonce.borsh ++ vecBorsh TokenWhitelist.borsh whitelist)

/-!
## Borsh decoding

A decoder for each encoder, used to establish that the canonical encoding is
injective on well-formed values: decoding is a left inverse of encoding.
Each decoder takes the byte stream and returns the decoded value and the
remaining stream, or `none`.
-/

/-- Take exactly `n` bytes from the stream. -/
def dTake (n : Nat) (l : List Nat) : Option (List Nat × List Nat) :=
  if n ≤ l.length then some (l.take n, l.drop n) else none

/-- Decode a little-endian `u32`. -/
def dU32 : List Nat → Option (Nat × List Nat)
  | b0 :: b1 :: b2 :: b3 :: rest =>
    some (b0 + b1 * 256 + b2 * 256 ^ 2 + b3 * 256 ^ 3, rest)
  | _ => none

/-- Decode a little-endian `u64`. -/
def dU64 : List Nat → Option (Nat × List Nat)
  | b0 :: b1 :: b2 :: b3 :: b4 :: b5 :: b6 :: b7 :: rest =>
    some (b0 + b1 * 256 + b2 * 256 ^ 2 + b3 * 256 ^ 3 + b4 * 256 ^ 4 +
      b5 * 256 ^ 5 + b6 * 256 ^ 6 + b7 * 256 ^ 7, rest)
  | _ => none

/-- Decode a `Uint`: four `u64` words. -/
def dUint (l : List Nat) : Option (Uint × List Nat) := do
  let (w0, l) ← dU64 l
  let (w1, l) ← dU64 l
  let (w2, l) ← dU64 l
  let (w3, l) ← dU64 l
  pure (⟨w0, w1, w2, w3⟩, l)

/-- Decode an `EthAddress`: 20 raw bytes. -/
def dEthAddress (l : List Nat) : Option (EthAddress × List Nat) := do
  let (bs, l) ← dTake 20 l
  pure (⟨bs⟩, l)

/-- Decode an `Amount`: one `u64`. -/
def dAmount (l : List Nat) : Option (Amount × List Nat) := do
  let (m, l) ← dU64 l
  pure (⟨m⟩, l)

/-- Decode an `Address`: length-prefixed byte string. -/
def dAddress (l : List Nat) : Option (Address × List Nat) := do
  let (n, l) ← dU32 l
  let (bs, l) ← dTake n l
  pure (⟨bs⟩, l)

/-- Decode a `KeccakHash`: 32 raw bytes. -/
def dKeccakHash (l : List Nat) : Option (KeccakHash × List Nat) := do
  let (bs, l) ← dTake 32 l
  pure (⟨bs⟩, l)

/-- Decode a string field: length-prefixed bytes. -/
def dString (l : List Nat) : Option (List Nat × List Nat) := do
  let (n, l) ← dU32 l
  dTake n l

/-- Decode `n` consecutive elements with the element decoder `d`. -/
def dRepeat (d : List Nat → Option (α × List Nat)) :
    Nat → List Nat → Option (List α × List Nat)
  | 0, l => some ([], l)
  | n + 1, l => do
    let (x, l) ← d l
    let (xs, l) ← dRepeat d n l
    pure (x :: xs, l)

/-- Decode a `Vec`: `u32` count, then that many elements. -/
def dVec (d : List Nat → Option (α × List Nat)) (l : List Nat) :
    Option (List α × List Nat) := do
  let (n, l) ← dU32 l
  dRepeat d n l

/-- Decode a `TransferToNamada`. -/
def dTransferToNamada (l : List Nat) : Option (TransferToNamada × List Nat) := do
  let (amount, l) ← dAmount l
  let (asset, l) ← dEthAddress l
  let (receiver, l) ← dAddress l
  pure (⟨amount, asset, receiver⟩, l)

/-- Decode a `TransferToEthereum`. -/
def dTransferToEthereum (l : List Nat) :
    Option (TransferToEthereum × List Nat) := do
  let (amount, l) ← dAmount l
  let (asset, l) ← dEthAddress l
  let (receiver, l) ← dEthAddress l
  let (gas_amount, l) ← dAmount l
  let (gas_payer, l) ← dAddress l
  pure (⟨amount, asset, receiver, gas_amount, gas_payer⟩, l)

/-- Decode a `TokenWhitelist`. -/
def dTokenWhitelist (l : List Nat) : Option (TokenWhitelist × List Nat) := do
  let (token, l) ← dEthAddress l
  let (cap, l) ← dAmount l
  pure (⟨token, cap⟩, l)

/-- Decode an `EthereumEvent`: tag byte, then the variant's fields. -/
def dEthereumEvent : List Nat → Option (EthereumEvent × List Nat)
  | 0 :: l => do
    let (nonce, l) ← dUint l
    let (transfers, l) ← dVec dTransferToNamada l
    pure (.TransfersToNamada nonce transfers, l)
  | 1 :: l => do
    let (nonce, l) ← dUint l
    let (transfers, l) ← dVec dTransferToEthereum l
    pure (.TransfersToEthereum nonce transfers, l)
  | 2 :: l => do
    let (nonce, l) ← dUint l
    let (bvh, l) ← dKeccakHash l
    let (gvh, l) ← dKeccakHash l
    pure (.ValidatorSetUpdate nonce bvh gvh, l)
  | 3 :: l => do
    let (name, l) ← dString l
    let (address, l) ← dEthAddress l
    pure (.NewContract name address, l)
  | 4 :: l => do
    let (name, l) ← dString l
    let (address, l) ← dEthAddress l
    pure (.UpgradedContract name address, l)
  | 5 :: l => do
    let (nonce, l) ← dUint l
    let (whitelist, l) ← dVec dTokenWhitelist l
    pure (.UpdateBridgeWhitelist nonce whitelist, l)
  | _ => none

/-!
## SHA-256

Modelled from the spec: `EthereumEvent::hash` digests the Borsh bytes with
`Hash::sha256` (`crate::types::hash::Hash`, not among the sources); per the
spec the digest is a 32-byte SHA-256 value, implemented here as the standard
FIPS 180-4 SHA-256 over the byte stream.
-/

/-- The constant 2^32, the word modulus of SHA-256. -/
def M32 : Nat := 2 ^ 32

/-- Right rotation of a 32-bit word. -/
def rotr32 (n x : Nat) : Nat := (x / 2 ^ n + x % 2 ^ n * 2 ^ (32 - n)) % M32

/-- Logical right shift. -/
def shr32 (n x : Nat) : Nat := x / 2 ^ n

/-- SHA-256 `Ch` function. -/
def shaCh (x y z : Nat) : Nat := (x &&& y) ^^^ ((x ^^^ (M32 - 1)) &&& z)

/-- SHA-256 `Maj` function. -/
def shaMaj (x y z : Nat) : Nat := (x &&& y) ^^^ (x &&& z) ^^^ (y &&& z)

/-- SHA-256 big sigma 0. -/
def bigSigma0 (x : Nat) : Nat := rotr32 2 x ^^^ rotr32 13 x ^^^ rotr32 22 x

/-- SHA-256 big sigma 1. -/
def bigSigma1 (x : Nat) : Nat := rotr32 6 x ^^^ rotr32 11 x ^^^ rotr32 25 x

/-- SHA-256 small sigma 0. -/
def smallSigma0 (x : Nat) : Nat := rotr32 7 x ^^^ rotr32 18 x ^^^ shr32 3 x

/-- SHA-256 small sigma 1. -/
def smallSigma1 (x : Nat) : Nat := rotr32 17 x ^^^ rotr32 19 x ^^^ shr32 10 x

/-- The 64 SHA-256 round constants. -/
def sha256K : List Nat :=
  [1116352408, 1899447441, 3049323471, 3921009573,
   961987163, 1508970993, 2453635748, 2870763221,
   3624381080, 310598401, 607225278, 1426881987,
   1925078388, 2162078206, 2614888103, 3248222580,
   3835390401, 4022224774, 264347078, 604807628,
   770255983, 1249150122, 1555081692, 1996064986,
   2554220882, 2821834349, 2952996808, 3210313671,
   3336571891, 3584528711, 113926993, 338241895,
   666307205, 773529912, 1294757372, 1396182291,
   1695183700, 1986661051, 2177026350, 2456956037,
   2730485921, 2820302411, 3259730800, 3345764771,
   3516065817, 3600352804, 4094571909, 275423344,
   430227734, 506948616, 659060556, 883997877,
   958139571, 1322822218, 1537002063, 1747873779,
   1955562222, 2024104815, 2227730452, 2361852424,
   2428436474, 2756734187, 3204031479, 3329325298]

/-- The SHA-256 working state: eight 32-bit registers. -/
structure SHAState where
  a : Nat
  b : Nat
  c : Nat
  d : Nat
  e : Nat
  f : Nat
  g : Nat
  h : Nat
deriving DecidableEq, Repr

/-- The SHA-256 initial hash value. -/
def sha256H0 : SHAState :=
  ⟨1779033703, 3144134277, 1013904242, 2773480762,
   1359893119, 2600822924, 528734635, 1541459225⟩

/-- One SHA-256 compression round. -/
def shaRound (k w : Nat) (s : SHAState) : SHAState :=
  let t1 := (s.h + bigSigma1 s.e + shaCh s.e s.f s.g + k + w) % M32
  let t2 := (bigSigma0 s.a + shaMaj s.a s.b s.c) % M32
  ⟨(t1 + t2) % M32, s.a, s.b, s.c, (s.d + t1) % M32, s.e, s.f, s.g⟩

/-- Pointwise sum of two states, mod 2^32. -/
def stAdd (x y : SHAState) : SHAState :=
  ⟨(x.a + y.a) % M32, (x.b + y.b) % M32, (x.c + y.c) % M32, (x.d + y.d) % M32,
   (x.e + y.e) % M32, (x.f + y.f) % M32, (x.g + y.g) % M32, (x.h + y.h) % M32⟩

/-- One extension step appended per unit of fuel; structural recursion so the
kernel can evaluate it. -/
def extendWAux : Nat → Array Nat → Array Nat
  | 0, w => w
  | fuel + 1, w =>
    if w.size < 64 then
      let i := w.size
      extendWAux fuel (w.push ((smallSigma1 w[i - 2]! + w[i - 7]! +
        smallSigma0 w[i - 15]! + w[i - 16]!) % M32))
    else w

/-- Extend a 16-word block to the 64-word message schedule. -/
def extendW (w : Array Nat) : Array Nat := extendWAux 64 w

/-- Group a byte stream into 32-bit big-endian words. -/
def toWordsBE : List Nat → List Nat
  | b0 :: b1 :: b2 :: b3 :: rest =>
    (b0 * 2 ^ 24 + b1 * 2 ^ 16 + b2 * 2 ^ 8 + b3) :: toWordsBE rest
  | _ => []

/-- Big-endian 8-byte form of the bit length. -/
def u64BE (n : Nat) : List Nat :=
  [n / 256 ^ 7 % 256, n / 256 ^ 6 % 256, n / 256 ^ 5 % 256, n / 256 ^ 4 % 256,
   n / 256 ^ 3 % 256, n / 256 ^ 2 % 256, n / 256 % 256, n % 256]

/-- Big-endian 4-byte form of a 32-bit word. -/
def u32BE (n : Nat) : List Nat :=
  [n / 256 ^ 3 % 256, n / 256 ^ 2 % 256, n / 256 % 256, n % 256]

/-- SHA-256 padding: append `0x80`, zeros to 56 mod 64, then the 64-bit
big-endian bit length. -/
def sha256pad (msg : List Nat) : List Nat :=
  let len := msg.length
  let zeros := (64 - (len + 9) % 64) % 64
  msg ++ 128 :: List.replicate zeros 0 ++ u64BE (8 * len)

/-- Fuel-bounded block splitting; structural recursion so the kernel can
evaluate it. -/
def chunksOf16Aux : Nat → List Nat → List (List Nat)
  | _, [] => []
  | 0, _ :: _ => []
  | fuel + 1, x :: rest => (x :: rest.take 15) :: chunksOf16Aux fuel (rest.drop 15)

/-- Split a word stream into 16-word blocks. -/
def chunksOf16 (l : List Nat) : List (List Nat) := chunksOf16Aux l.length l

/-- Compress one 16-word block into the running state. -/
def compressBlock (H : SHAState) (block : List Nat) : SHAState :=
  let ws := (extendW block.toArray).toList
  stAdd H ((sha256K.zip ws).foldl (fun s kw => shaRound kw.1 kw.2 s) H)

/-- SHA-256 of a byte stream: 32 digest bytes. -/
def sha256 (msg : List Nat) : List Nat :=
  let Hf := (chunksOf16 (toWordsBE (sha256pad msg))).foldl compressBlock sha256H0
  u32BE Hf.a ++ u32BE Hf.b ++ u32BE Hf.c ++ u32BE Hf.d ++
    u32BE Hf.e ++ u32BE Hf.f ++ u32BE Hf.g ++ u32BE Hf.h

theorem sha256_length (msg : List Nat) : (sha256 msg).length = 32 := rfl

/-- Modelled from the spec: `Hash` (`crate::types::hash::Hash`, not among the
sources) — a 32-byte digest; `Hash::sha256` digests a byte stream. -/
structure Hash where
  bytes : List Nat
deriving DecidableEq, Repr

/-- Digest `Hash::sha256` of a byte stream. -/
def Hash.ofSha256 (bs : List Nat) : Hash := ⟨sha256 bs⟩

/-!
## `try_to_vec` and `EthereumEvent::hash`

Source: `hash` is `Hash::sha256(self.try_to_vec()?)`.  Borsh's `try_to_vec`
serializes into an in-memory `Vec<u8>` through the fallible `io::Write`
interface; the only error source is the byte sink, and the `Vec` sink's
write never fails.  The serializers below mirror that shape: every field
write goes through `vecWrite` and the whole computation is threaded through
the error monad exactly as the `?` operators thread `io::Result`.
-/

/-- The `Vec<u8>` byte sink: appends and never fails. -/
def vecWrite (buf bs : List Nat) : Except String (List Nat) :=
  Except.ok (buf ++ bs)

/-- Writer `BorshSerialize for Uint`: the four words written in order. -/
def Uint.serialize (u : Uint) (buf : List Nat) : Except String (List Nat) := do
  let buf ← vecWrite buf (u64LE u.w0)
  let buf ← vecWrite buf (u64LE u.w1)
  let buf ← vecWrite buf (u64LE u.w2)
  vecWrite buf (u64LE u.w3)

/-- Writer `BorshSerialize for EthAddress`: the 20 raw bytes. -/
def EthAddress.serialize (a : EthAddress) (buf : List Nat) :
    Except String (List Nat) :=
  vecWrite buf a.bytes

/-- Writer `BorshSerialize for Amount`: one `u64`. -/
def Amount.serialize (a : Amount) (buf : List Nat) :
    Except String (List Nat) :=
  vecWrite buf (u64LE a.micro)

/-- Writer `BorshSerialize for Address`: the length-prefixed textual form. -/
def Address.serialize (a : Address) (buf : List Nat) :
    Except String (List Nat) := do
  let buf ← vecWrite buf (u32LE a.repr.length)
  vecWrite buf a.repr

/-- Writer `BorshSerialize for KeccakHash`: the 32 raw bytes. -/
def KeccakHash.serialize (k : KeccakHash) (buf : List Nat) :
    Except String (List Nat) :=
  vecWrite buf k.bytes

/-- Borsh string serialization: length prefix, then the bytes. -/
def stringSerialize (s : List Nat) (buf : List Nat) :
    Except String (List Nat) := do
  let buf ← vecWrite buf (u32LE s.length)
  vecWrite buf s

/-- Borsh `Vec` serialization: length prefix, then each element. -/
def vecSerialize (f : α → List Nat → Except String (List Nat))
    (xs : List α) (buf : List Nat) : Except String (List Nat) := do
  let buf ← vecWrite buf (u32LE xs.length)
  xs.foldlM (fun buf x => f x buf) buf

/-- Writer `BorshSerialize for TransferToNamada`: fields in declaration order. -/
def TransferToNamada.serialize (t : TransferToNamada) (buf : List Nat) :
    Except String (List Nat) := do
  let buf ← t.amount.serialize buf
  let buf ← t.asset.serialize buf
  t.receiver.serialize buf

/-- Writer `BorshSerialize for TransferToEthereum`: fields in declaration order. -/
def TransferToEthereum.serialize (t : TransferToEthereum) (buf : List Nat) :
    Except String (List Nat) := do
  let buf ← t.amount.serialize buf
  let buf ← t.asset.serialize buf
  let buf ← t.receiver.serialize buf
  let buf ← t.gas_amount.serialize buf
  t.gas_payer.serialize buf

/-- Writer `BorshSerialize for TokenWhitelist`: fields in declaration order. -/
def TokenWhitelist.serialize (w : TokenWhitelist) (buf : List Nat) :
    Except String (List Nat) := do
  let buf ← w.token.serialize buf
  w.cap.serialize buf

/-- Writer `BorshSerialize for EthereumEvent`: tag byte, then the variant's fields in
declaration order. -/
def EthereumEvent.serialize (e : EthereumEvent) (buf : List Nat) :
    Except String (List Nat) :=
  match e with
  | .TransfersToNamada nonce transfers => do
    let buf ← vecWrite buf [0]
    let buf ← nonce.serialize buf
    vecSerialize TransferToNamada.serialize transfers buf
  | .TransfersToEthereum nonce transfers => do
    let buf ← vecWrite buf [1]
    let buf ← nonce.serialize buf
    vecSerialize TransferToEthereum.serialize transfers buf
  | .ValidatorSetUpdate nonce bvh gvh => do
    let buf ← vecWrite buf [2]
    let buf ← nonce.serialize buf
    let buf ← bvh.serialize buf
    gvh.serialize buf
  | .NewContract name address => do
    let buf ← vecWrite buf [3]
    let buf ← stringSerialize name buf
    address.serialize buf
  | .UpgradedContract name address => do
    let buf ← vecWrite buf [4]
    let buf ← stringSerialize name buf
    address.serialize buf
  | .UpdateBridgeWhitelist nonce whitelist => do
    let buf ← vecWrite buf [5]
    let buf ← nonce.serialize buf
    vecSerialize TokenWhitelist.serialize whitelist buf

/-- Source method `try_to_vec`: serialize into an empty `Vec`. -/
def EthereumEvent.tryToVec (e : EthereumEvent) : Except String (List Nat) :=
  e.serialize []

/-- Source method `EthereumEvent::hash`: SHA-256 of the Borsh bytes,
propagating a serialization error through the error channel. -/
def EthereumEvent.hash (e : EthereumEvent) : Except String Hash := do
  let bytes ← e.tryToVec
  pure (Hash.ofSha256 bytes)

/-!
## Derived comparisons

Rust's `#[derive(PartialEq, Eq, PartialOrd, Ord)]` on the event union and the
payload records: variants discriminate by declaration order, fields compare
lexicographically in declaration order, `Vec`/`String`/slices compare
lexicographically with a shorter prefix ordering first.
-/

/-- Lexicographic comparison of lists (Rust's slice/`Vec` `Ord`): shorter
prefix first. -/
def listCmp (c : α → α → Ordering) : List α → List α → Ordering
  | [], [] => Ordering.eq
  | [], _ :: _ => Ordering.lt
  | _ :: _, [] => Ordering.gt
  | a :: as, b :: bs => (c a b).then (listCmp c as bs)

/-- Derived `Ord` on `EthAddress`: the 20 bytes, lexicographically. -/
def EthAddress.cmp (a b : EthAddress) : Ordering := bytesCmp a.bytes b.bytes

/-- Modelled from the spec: `Amount` is an opaque comparable value; numeric
comparison of the backing quantity. -/
def Amount.cmp (a b : Amount) : Ordering := compare a.micro b.micro

/-- Modelled from the spec: the native `Address` is an opaque comparable
value; lexicographic comparison of its canonical text. -/
def Address.cmp (a b : Address) : Ordering := bytesCmp a.repr b.repr

/-- Derived `Ord` on `KeccakHash`: the 32 bytes, lexicographically. -/
def KeccakHash.cmp (a b : KeccakHash) : Ordering := bytesCmp a.bytes b.bytes

/-- Derived `Ord` on `TransferToNamada`: fields in declaration order. -/
def TransferToNamada.cmp (x y : TransferToNamada) : Ordering :=
  (x.amount.cmp y.amount).then ((x.asset.cmp y.asset).then
    (x.receiver.cmp y.receiver))

/-- Derived `Ord` on `TransferToEthereum`: fields in declaration order. -/
def TransferToEthereum.cmp (x y : TransferToEthereum) : Ordering :=
  (x.amount.cmp y.amount).then ((x.asset.cmp y.asset).then
    ((x.receiver.cmp y.receiver).then ((x.gas_amount.cmp y.gas_amount).then
      (x.gas_payer.cmp y.gas_payer))))

/-- Derived `Ord` on `TokenWhitelist`: fields in declaration order. -/
def TokenWhitelist.cmp (x y : TokenWhitelist) : Ordering :=
  (x.token.cmp y.token).then (x.cap.cmp y.cap)

/-- Derived `Ord` on `EthereumEvent`: variant tag in declaration order first,
then the matched variant's fields in declaration order. -/
def EthereumEvent.cmp : EthereumEvent → EthereumEvent → Ordering
  | .TransfersToNamada n1 t1, .TransfersToNamada n2 t2 =>
    (n1.cmp n2).then (listCmp TransferToNamada.cmp t1 t2)
  | .TransfersToEthereum n1 t1, .TransfersToEthereum n2 t2 =>
    (n1.cmp n2).then (listCmp TransferToEthereum.cmp t1 t2)
  | .ValidatorSetUpdate n1 b1 g1, .ValidatorSetUpdate n2 b2 g2 =>
    (n1.cmp n2).then ((b1.cmp b2).then (g1.cmp g2))
  | .NewContract s1 a1, .NewContract s2 a2 =>
    (listCmp compare s1 s2).then (a1.cmp a2)
  | .UpgradedContract s1 a1, .UpgradedContract s2 a2 =>
    (listCmp compare s1 s2).then (a1.cmp a2)
  | .UpdateBridgeWhitelist n1 w1, .UpdateBridgeWhitelist n2 w2 =>
    (n1.cmp n2).then (listCmp TokenWhitelist.cmp w1 w2)
  | a, b => compare a.tag b.tag

/-!
## Parsing and canonical-form lemmas
-/

theorem hexVal_hexDigitLower (d : Nat) (h : d < 16) :
    hexVal (hexDigitLower d) = some d := by
  unfold hexVal hexDigitLower
  split_ifs <;> (try congr 1) <;> omega

theorem hexPairs_encode (bs : List Nat) (h : BytesWf bs) :
    hexPairsToBytes (bs.map byteToHexLower).flatten = some bs := by
  induction bs with
  | nil => rfl
  | cons b rest ih =>
    have hb : b < 256 := h b (List.mem_cons_self b rest)
    have hrest : BytesWf rest := fun x hx => h x (List.mem_cons_of_mem b hx)
    have h1 : b / 16 < 16 := by omega
    have h2 : b % 16 < 16 := by omega
    simp only [List.map_cons, List.flatten_cons, byteToHexLower, List.cons_append,
      List.nil_append, hexPairsToBytes, hexVal_hexDigitLower _ h1,
      hexVal_hexDigitLower _ h2, ih hrest, Option.bind_some, Option.some_bind]
    have hb2 : b / 16 * 16 + b % 16 = b := by omega
    simp [ih hrest, hb2]

theorem flatten_hex_length (bs : List Nat) :
    (bs.map byteToHexLower).flatten.length = 2 * bs.length := by
  induction bs with
  | nil => rfl
  | cons b rest ih =>
    simp [byteToHexLower, ih]
    omega

theorem fromStr_to_canonical (bs : List Nat) (hlen : bs.length = 20)
    (hwf : BytesWf bs) :
    EthAddress.fromStr (EthAddress.to_canonical ⟨bs⟩) = some ⟨bs⟩ := by
  simp only [EthAddress.to_canonical, EthAddress.fromStr]
  rw [if_pos]
  · rw [hexPairs_encode bs hwf]
    rfl
  · rw [flatten_hex_length, hlen]

theorem hexVal_asciiLower (c : Nat) : hexVal (asciiLower c) = hexVal c := by
  unfold hexVal asciiLower
  split_ifs <;> (try congr 1) <;> omega

theorem hexPairsToBytes_map_asciiLower (l : List Nat) :
    hexPairsToBytes (l.map asciiLower) = hexPairsToBytes l := by
  induction l using hexPairsToBytes.induct with
  | case1 => rfl
  | case2 c1 c2 rest ih =>
    simp [hexPairsToBytes, hexVal_asciiLower, ih]
  | case3 c => rfl

theorem hexPairsToBytes_isSome_hex (l : List Nat) (bs : List Nat)
    (h : hexPairsToBytes l = some bs) : ∀ d ∈ l, (hexVal d).isSome := by
  induction l using hexPairsToBytes.induct generalizing bs with
  | case1 => simp
  | case2 c1 c2 rest ih =>
    simp only [hexPairsToBytes, Option.bind_eq_bind, Option.pure_def] at h
    intro d hd
    rcases h1 : hexVal c1 with _ | v1
    · rw [h1] at h; simp at h
    rcases h2 : hexVal c2 with _ | v2
    · rw [h1, h2] at h; simp at h
    rcases h3 : hexPairsToBytes rest with _ | tail
    · rw [h1, h2, h3] at h; simp at h
    simp only [List.mem_cons] at hd
    rcases hd with rfl | rfl | hd
    · simp [h1]
    · simp [h2]
    · exact ih tail h3 d hd
  | case3 c => simp [hexPairsToBytes] at h

/-- The shape of strings `EthAddress::from_str` accepts: `"0x"` followed by
exactly 40 hex digits. -/
def ValidAddressStr (s : List Nat) : Prop :=
  s.length = 42 ∧ s.take 2 = [48, 120] ∧ ∀ d ∈ s.drop 2, (hexVal d).isSome

instance (s : List Nat) : Decidable (ValidAddressStr s) := by
  unfold ValidAddressStr; infer_instance

theorem fromStr_some_valid (s : List Nat) (a : EthAddress)
    (h : EthAddress.fromStr s = some a) : ValidAddressStr s := by
  unfold EthAddress.fromStr at h
  split at h
  case h_2 => exact absurd h (by simp)
  case h_1 s rest =>
    split at h
    case isFalse => exact absurd h (by simp)
    case isTrue hlen =>
      rcases hp : hexPairsToBytes rest with _ | bs
      · rw [hp] at h; simp at h
      refine ⟨by simp [hlen], rfl, ?_⟩
      simpa using hexPairsToBytes_isSome_hex rest bs hp

/-- The `DAI_ERC20_ETH_ADDRESS` fixture from the source's testing module. -/
def DAI_ERC20_ETH_ADDRESS : EthAddress :=
  ⟨[107, 23, 84, 116, 232, 144, 148, 196, 77, 169, 139, 149, 78, 237, 234,
    196, 149, 39, 29, 15]⟩

/-- C4: for every 20-byte sequence `b`, parsing the canonical textual form of
the address built from `b` succeeds and yields back exactly `EthAddress(b)`:
`from_str(EthAddress(b).to_canonical()) == Ok(EthAddress(b))`. -/
theorem claim_C4 (bs : List Nat) (hlen : bs.length = 20) (hwf : BytesWf bs) :
    EthAddress.fromStr (EthAddress.to_canonical ⟨bs⟩) = some ⟨bs⟩ :=
  fromStr_to_canonical bs hlen hwf

theorem claim_C4_witness :
    EthAddress.fromStr
      (EthAddress.to_canonical DAI_ERC20_ETH_ADDRESS) =
      some DAI_ERC20_ETH_ADDRESS :=
  claim_C4 DAI_ERC20_ETH_ADDRESS.bytes (by decide) (by decide)

/-- C5: address parsing is case-insensitive (lower-casing the 40 hex digits
never changes the parse result), and on the DAI fixture: the checksummed form
parses to the fixture bytes, serializes canonically to the all-lower-case
form, and the lower-case form parses back to the same 20 raw bytes. -/
theorem claim_C5 :
    (∀ ds : List Nat,
      EthAddress.fromStr (48 :: 120 :: ds.map asciiLower) =
        EthAddress.fromStr (48 :: 120 :: ds)) ∧
    EthAddress.fromStr
      (strBytes "0x6B175474E89094C44Da98b954EedeAC495271d0F") =
      some DAI_ERC20_ETH_ADDRESS ∧
    EthAddress.to_canonical DAI_ERC20_ETH_ADDRESS =
      strBytes "0x6b175474e89094c44da98b954eedeac495271d0f" ∧
    EthAddress.fromStr
      (strBytes "0x6b175474e89094c44da98b954eedeac495271d0f") =
      some DAI_ERC20_ETH_ADDRESS := by
  refine ⟨fun ds => ?_, by decide, by decide, by decide⟩
  simp [EthAddress.fromStr, hexPairsToBytes_map_asciiLower]

/-- C6: `EthAddress::from_str` returns an error (an explicit failure value,
not a panic) for every input that is not `"0x"` followed by exactly 40 hex
digits; in particular `"not an address"` and `"0x123"` fail to parse. -/
theorem claim_C6 (s : List Nat) (h : ¬ ValidAddressStr s) :
    EthAddress.fromStr s = none := by
  rcases he : EthAddress.fromStr s with _ | a
  · rfl
  · exact absurd (fromStr_some_valid s a he) h

theorem claim_C6_witness :
    EthAddress.fromStr (strBytes "not an address") = none ∧
    EthAddress.fromStr (strBytes "0x123") = none :=
  ⟨claim_C6 (strBytes "not an address") (by decide),
   claim_C6 (strBytes "0x123") (by decide)⟩

/-- C9: in the storage-key-segment role, a parse failure is reported as the
distinct `ParseKeySeg` error carrying the exact offending input string (not as
the generic address parse error), and for every valid address `a`,
`KeySeg::parse(a.raw())` succeeds and returns `a`, where `raw()` is the
canonical lower-case form. -/
theorem claim_C9 :
    (∀ s : List Nat, EthAddress.fromStr s = none →
      EthAddress.keySegParse s = Except.error (StorageError.ParseKeySeg s)) ∧
    (∀ a : EthAddress, a.Wf →
      EthAddress.keySegParse a.raw = Except.ok a) := by
  constructor
  · intro s h
    simp [EthAddress.keySegParse, h]
  · intro a ha
    obtain ⟨bs⟩ := a
    simp [EthAddress.keySegParse, EthAddress.raw,
      fromStr_to_canonical bs ha.1 ha.2]

theorem claim_C9_witness :
    EthAddress.keySegParse (strBytes "0x123") =
      Except.error (StorageError.ParseKeySeg (strBytes "0x123")) ∧
    EthAddress.keySegParse DAI_ERC20_ETH_ADDRESS.raw =
      Except.ok DAI_ERC20_ETH_ADDRESS :=
  ⟨claim_C9.1 (strBytes "0x123") (by decide),
   claim_C9.2 DAI_ERC20_ETH_ADDRESS (by decide)⟩

/-!
## `Uint` numeric claims
-/

/-- C7: `Uint::from(123u64).to_bytes()` is the 32-byte array with byte 0 equal
to 123 and the other 31 bytes zero; conversion from a native `u64`
zero-extends into word 0 (the value is preserved and the result is
well-formed); and for every well-formed `Uint`, `to_bytes` is the 32-byte
little-endian layout of its numeric value, with word 0 least significant.
Both operations are total functions, hence deterministic. -/
theorem claim_C7 :
    (Uint.fromU64 123).to_bytes = 123 :: List.replicate 31 0 ∧
    (∀ n : Nat, (Uint.fromU64 n).value = n % 2 ^ 64 ∧ (Uint.fromU64 n).Wf) ∧
    (∀ u : Uint, u.Wf →
      u.to_bytes = (List.range 32).map (fun i => u.value / 2 ^ (8 * i) % 256)) := by
  refine ⟨by decide, fun n => ⟨by simp [Uint.fromU64, Uint.value], ?_⟩, ?_⟩
  · simp only [Uint.Wf, Uint.fromU64]
    refine ⟨by omega, by norm_num, by norm_num, by norm_num⟩
  · intro u hu
    obtain ⟨h0, h1, h2, h3⟩ := hu
    obtain ⟨w0, w1, w2, w3⟩ := u
    simp only [Uint.to_bytes, Uint.value] at *
    simp only [u64LE, List.cons_append, List.nil_append]
    norm_num [List.range_succ, List.map_append]
    omega

theorem claim_C7_witness :
    (Uint.mk 5 6 7 8).to_bytes =
      (List.range 32).map (fun i => (Uint.mk 5 6 7 8).value / 2 ^ (8 * i) % 256) :=
  claim_C7.2.2 (Uint.mk 5 6 7 8) (by decide)

theorem ordering_then_eq_lt (o p : Ordering) :
    o.then p = Ordering.lt ↔ o = Ordering.lt ∨ (o = Ordering.eq ∧ p = Ordering.lt) := by
  cases o <;> cases p <;> decide

/-- C1 counterexample: the derived ordering on `Uint` is NOT consistent with
numeric value ordering.  `Uint([0,1,0,0])` (numeric value 2^64) compares less
than `Uint([1,0,0,0])` (numeric value 1) because the derived comparison reads
the word tuple from word 0 — the LEAST significant word — upward.  Both
inputs are well-formed. -/
theorem claim_C1_counterexample :
    Uint.Wf ⟨0, 1, 0, 0⟩ ∧ Uint.Wf ⟨1, 0, 0, 0⟩ ∧
    Uint.ltOrd ⟨0, 1, 0, 0⟩ ⟨1, 0, 0, 0⟩ ∧
    ¬ Uint.value ⟨0, 1, 0, 0⟩ < Uint.value ⟨1, 0, 0, 0⟩ := by
  refine ⟨by decide, by decide, by decide, by norm_num [Uint.value]⟩

/-- C1 (amended): the derived ordering on `Uint` is lexicographic over the
four stored words from word 0 (the least significant) upward; it therefore
coincides with numeric ordering of the words read in REVERSED significance
(word 0 treated as most significant), not with the 256-bit numeric value. -/
theorem claim_C1 (a b : Uint) (ha : a.Wf) (hb : b.Wf) :
    a.ltOrd b ↔ a.revValue < b.revValue := by
  obtain ⟨a0, a1, a2, a3⟩ := a
  obtain ⟨b0, b1, b2, b3⟩ := b
  obtain ⟨ha0, ha1, ha2, ha3⟩ := ha
  obtain ⟨hb0, hb1, hb2, hb3⟩ := hb
  simp only [Uint.ltOrd, Uint.cmp, Uint.revValue] at *
  rw [ordering_then_eq_lt, ordering_then_eq_lt, ordering_then_eq_lt]
  simp only [Nat.compare_eq_lt, Nat.compare_eq_eq]
  omega

theorem claim_C1_witness :
    Uint.ltOrd ⟨0, 1, 0, 0⟩ ⟨1, 0, 0, 0⟩ ↔
      Uint.revValue ⟨0, 1, 0, 0⟩ < Uint.revValue ⟨1, 0, 0, 0⟩ :=
  claim_C1 ⟨0, 1, 0, 0⟩ ⟨1, 0, 0, 0⟩ (by decide) (by decide)

/-!
## Variant discrimination (claim C10)
-/

/-- C10: the derived equality and ordering on `EthereumEvent` discriminate
first by variant tag in declaration order: two events of different variants
are never equal, and the one with the earlier-declared variant orders
strictly first, regardless of the payload fields. -/
theorem claim_C10 (a b : EthereumEvent) (h : a.tag ≠ b.tag) :
    a ≠ b ∧ (a.cmp b = Ordering.lt ↔ a.tag < b.tag) := by
  cases a <;> cases b <;>
    simp_all [EthereumEvent.cmp, EthereumEvent.tag, Nat.compare_eq_lt]

theorem claim_C10_witness :
    (EthereumEvent.TransfersToNamada ⟨123, 0, 0, 0⟩ [] ≠
      EthereumEvent.TransfersToEthereum ⟨123, 0, 0, 0⟩ []) ∧
    ((EthereumEvent.TransfersToNamada ⟨123, 0, 0, 0⟩ []).cmp
        (EthereumEvent.TransfersToEthereum ⟨123, 0, 0, 0⟩ []) = Ordering.lt ↔
      (EthereumEvent.TransfersToNamada ⟨123, 0, 0, 0⟩ []).tag <
        (EthereumEvent.TransfersToEthereum ⟨123, 0, 0, 0⟩ []).tag) :=
  claim_C10 (EthereumEvent.TransfersToNamada ⟨123, 0, 0, 0⟩ [])
    (EthereumEvent.TransfersToEthereum ⟨123, 0, 0, 0⟩ []) (by decide)

/-!
## The serializer never fails (claim C8)

Every write goes through the in-memory `Vec` sink, which always succeeds, so
each serializer returns exactly the pure Borsh bytes appended to the buffer.
-/

theorem vecWrite_ok (buf bs : List Nat) : vecWrite buf bs = Except.ok (buf ++ bs) := rfl

theorem except_ok_bind (x : α) (f : α → Except String β) :
    (Except.ok x >>= f : Except String β) = f x := rfl

theorem except_pure_eq_ok (x : α) :
    (pure x : Except String α) = Except.ok x := rfl

theorem uintSerialize_ok (u : Uint) (buf : List Nat) :
    u.serialize buf = Except.ok (buf ++ u.borsh) := by
  simp [Uint.serialize, vecWrite, Uint.borsh, except_ok_bind]

theorem ethAddressSerialize_ok (a : EthAddress) (buf : List Nat) :
    a.serialize buf = Except.ok (buf ++ a.borsh) := rfl

theorem amountSerialize_ok (a : Amount) (buf : List Nat) :
    a.serialize buf = Except.ok (buf ++ a.borsh) := rfl

theorem addressSerialize_ok (a : Address) (buf : List Nat) :
    a.serialize buf = Except.ok (buf ++ a.borsh) := by
  simp [Address.serialize, vecWrite, Address.borsh, except_ok_bind]

theorem keccakSerialize_ok (k : KeccakHash) (buf : List Nat) :
    k.serialize buf = Except.ok (buf ++ k.borsh) := rfl

theorem stringSerialize_ok (s buf : List Nat) :
    stringSerialize s buf = Except.ok (buf ++ stringBorsh s) := by
  simp [stringSerialize, vecWrite, stringBorsh, except_ok_bind]

theorem foldlM_serialize_ok (f : α → List Nat → Except String (List Nat))
    (enc : α → List Nat) (xs : List α)
    (hf : ∀ x ∈ xs, ∀ b, f x b = Except.ok (b ++ enc x)) (buf : List Nat) :
    xs.foldlM (fun b x => f x b) buf =
      Except.ok (buf ++ (xs.map enc).flatten) := by
  induction xs generalizing buf with
  | nil => simp [except_pure_eq_ok]
  | cons x rest ih =>
    have hx := hf x (List.mem_cons_self x rest) buf
    simp only [List.foldlM_cons, hx, except_ok_bind]
    rw [ih (fun y hy b => hf y (List.mem_cons_of_mem x hy) b)]
    simp

theorem vecSerialize_ok (f : α → List Nat → Except String (List Nat))
    (enc : α → List Nat) (xs : List α)
    (hf : ∀ x ∈ xs, ∀ b, f x b = Except.ok (b ++ enc x)) (buf : List Nat) :
    vecSerialize f xs buf = Except.ok (buf ++ vecBorsh enc xs) := by
  simp only [vecSerialize, vecWrite, except_ok_bind, vecBorsh]
  rw [foldlM_serialize_ok f enc xs hf]
  simp

theorem transferToNamadaSerialize_ok (t : TransferToNamada) (buf : List Nat) :
    t.serialize buf = Except.ok (buf ++ t.borsh) := by
  simp [TransferToNamada.serialize, amountSerialize_ok,
    ethAddressSerialize_ok, addressSerialize_ok, TransferToNamada.borsh,
    except_ok_bind]

theorem transferToEthereumSerialize_ok (t : TransferToEthereum)
    (buf : List Nat) : t.serialize buf = Except.ok (buf ++ t.borsh) := by
  simp [TransferToEthereum.serialize, amountSerialize_ok,
    ethAddressSerialize_ok, addressSerialize_ok, TransferToEthereum.borsh,
    except_ok_bind]

theorem tokenWhitelistSerialize_ok (w : TokenWhitelist) (buf : List Nat) :
    w.serialize buf = Except.ok (buf ++ w.borsh) := by
  simp [TokenWhitelist.serialize, ethAddressSerialize_ok,
    amountSerialize_ok, TokenWhitelist.borsh, except_ok_bind]

theorem eventSerialize_ok (e : EthereumEvent) (buf : List Nat) :
    e.serialize buf = Except.ok (buf ++ e.borsh) := by
  cases e <;>
    simp [EthereumEvent.serialize, EthereumEvent.borsh, vecWrite,
      uintSerialize_ok, stringSerialize_ok, ethAddressSerialize_ok,
      keccakSerialize_ok, except_ok_bind,
      vecSerialize_ok TransferToNamada.serialize TransferToNamada.borsh _
        (fun x _ b => transferToNamadaSerialize_ok x b),
      vecSerialize_ok TransferToEthereum.serialize TransferToEthereum.borsh _
        (fun x _ b => transferToEthereumSerialize_ok x b),
      vecSerialize_ok TokenWhitelist.serialize TokenWhitelist.borsh _
        (fun x _ b => tokenWhitelistSerialize_ok x b)]

/-- Method `try_to_vec` always succeeds with the canonical Borsh bytes. -/
theorem tryToVec_ok (e : EthereumEvent) :
    e.tryToVec = Except.ok e.borsh := by
  rw [EthereumEvent.tryToVec, eventSerialize_ok]
  rfl

/-- C8: the error branch of `EthereumEvent::hash` is unreachable — for every
event, `hash()` returns `Ok` with a 32-byte digest; the serialization step it
wraps never fails. -/
theorem claim_C8 (e : EthereumEvent) :
    ∃ d : Hash, e.hash = Except.ok d ∧ d.bytes.length = 32 := by
  refine ⟨Hash.ofSha256 e.borsh, ?_, sha256_length e.borsh⟩
  simp [EthereumEvent.hash, tryToVec_ok e]

theorem claim_C8_witness :
    ∃ d : Hash,
      (EthereumEvent.NewContract (strBytes "bridge")
        DAI_ERC20_ETH_ADDRESS).hash = Except.ok d ∧ d.bytes.length = 32 :=
  claim_C8 (EthereumEvent.NewContract (strBytes "bridge") DAI_ERC20_ETH_ADDRESS)

/-!
## Decoding is a left inverse of encoding (claim C2)
-/

theorem dU32_ok (n : Nat) (h : n < 2 ^ 32) (rest : List Nat) :
    dU32 (u32LE n ++ rest) = some (n, rest) := by
  simp only [u32LE, List.cons_append, List.nil_append, dU32,
    Option.some.injEq, Prod.mk.injEq]
  refine ⟨by omega, trivial⟩

theorem dU64_ok (n : Nat) (h : n < 2 ^ 64) (rest : List Nat) :
    dU64 (u64LE n ++ rest) = some (n, rest) := by
  simp only [u64LE, List.cons_append, List.nil_append, dU64,
    Option.some.injEq, Prod.mk.injEq]
  refine ⟨by omega, trivial⟩

theorem dTake_ok (n : Nat) (bs rest : List Nat) (h : bs.length = n) :
    dTake n (bs ++ rest) = some (bs, rest) := by
  subst h
  simp [dTake]

theorem dUint_ok (u : Uint) (hu : u.Wf) (rest : List Nat) :
    dUint (u.borsh ++ rest) = some (u, rest) := by
  obtain ⟨h0, h1, h2, h3⟩ := hu
  simp [Uint.borsh, dUint, dU64_ok _ h0, dU64_ok _ h1, dU64_ok _ h2,
    dU64_ok _ h3]

theorem dEthAddress_ok (a : EthAddress) (ha : a.Wf) (rest : List Nat) :
    dEthAddress (a.borsh ++ rest) = some (a, rest) := by
  simp [EthAddress.borsh, dEthAddress, dTake_ok 20 a.bytes rest ha.1]

theorem dAmount_ok (a : Amount) (ha : a.Wf) (rest : List Nat) :
    dAmount (a.borsh ++ rest) = some (a, rest) := by
  simp [Amount.borsh, dAmount, dU64_ok _ ha]

theorem dAddress_ok (a : Address) (ha : a.Wf) (rest : List Nat) :
    dAddress (a.borsh ++ rest) = some (a, rest) := by
  simp [Address.borsh, dAddress, dU32_ok _ ha.2,
    dTake_ok a.repr.length a.repr rest rfl]

theorem dKeccakHash_ok (k : KeccakHash) (hk : k.Wf) (rest : List Nat) :
    dKeccakHash (k.borsh ++ rest) = some (k, rest) := by
  simp [KeccakHash.borsh, dKeccakHash, dTake_ok 32 k.bytes rest hk.1]

theorem dString_ok (s : List Nat) (hs : StringWf s) (rest : List Nat) :
    dString (stringBorsh s ++ rest) = some (s, rest) := by
  simp [stringBorsh, dString, dU32_ok _ hs.2,
    dTake_ok s.length s rest rfl]

theorem dRepeat_ok (d : List Nat → Option (α × List Nat)) (enc : α → List Nat)
    (xs : List α) (h : ∀ x ∈ xs, ∀ r, d (enc x ++ r) = some (x, r))
    (rest : List Nat) :
    dRepeat d xs.length ((xs.map enc).flatten ++ rest) = some (xs, rest) := by
  induction xs generalizing rest with
  | nil => simp [dRepeat]
  | cons x tail ih =>
    have hx := h x (List.mem_cons_self x tail)
    have ihx := ih (fun y hy r => h y (List.mem_cons_of_mem x hy) r) rest
    simp only [List.length_cons, List.map_cons, List.flatten_cons,
      List.append_assoc] at ihx ⊢
    simp [dRepeat, hx, ihx]

theorem dVec_ok (d : List Nat → Option (α × List Nat)) (enc : α → List Nat)
    (xs : List α) (h : ∀ x ∈ xs, ∀ r, d (enc x ++ r) = some (x, r))
    (hlen : xs.length < 2 ^ 32) (rest : List Nat) :
    dVec d (vecBorsh enc xs ++ rest) = some (xs, rest) := by
  simp [vecBorsh, dVec, dU32_ok _ hlen, dRepeat_ok d enc xs h rest]

theorem dTransferToNamada_ok (t : TransferToNamada) (ht : t.Wf)
    (rest : List Nat) :
    dTransferToNamada (t.borsh ++ rest) = some (t, rest) := by
  obtain ⟨h1, h2, h3⟩ := ht
  simp [TransferToNamada.borsh, dTransferToNamada, dAmount_ok _ h1,
    dEthAddress_ok _ h2, dAddress_ok _ h3]

theorem dTransferToEthereum_ok (t : TransferToEthereum) (ht : t.Wf)
    (rest : List Nat) :
    dTransferToEthereum (t.borsh ++ rest) = some (t, rest) := by
  obtain ⟨h1, h2, h3, h4, h5⟩ := ht
  simp [TransferToEthereum.borsh, dTransferToEthereum, dAmount_ok _ h1,
    dEthAddress_ok _ h2, dEthAddress_ok _ h3, dAmount_ok _ h4,
    dAddress_ok _ h5]

theorem dTokenWhitelist_ok (w : TokenWhitelist) (hw : w.Wf)
    (rest : List Nat) :
    dTokenWhitelist (w.borsh ++ rest) = some (w, rest) := by
  obtain ⟨h1, h2⟩ := hw
  simp [TokenWhitelist.borsh, dTokenWhitelist, dEthAddress_ok _ h1,
    dAmount_ok _ h2]

theorem dEthereumEvent_ok (e : EthereumEvent) (he : e.Wf) (rest : List Nat) :
    dEthereumEvent (e.borsh ++ rest) = some (e, rest) := by
  cases e with
  | TransfersToNamada nonce transfers =>
    obtain ⟨hn, ht, hlen⟩ := he
    simp [EthereumEvent.borsh, dEthereumEvent, dUint_ok nonce hn,
      dVec_ok dTransferToNamada TransferToNamada.borsh transfers
        (fun x hx r => dTransferToNamada_ok x (ht x hx) r) hlen]
  | TransfersToEthereum nonce transfers =>
    obtain ⟨hn, ht, hlen⟩ := he
    simp [EthereumEvent.borsh, dEthereumEvent, dUint_ok nonce hn,
      dVec_ok dTransferToEthereum TransferToEthereum.borsh transfers
        (fun x hx r => dTransferToEthereum_ok x (ht x hx) r) hlen]
  | ValidatorSetUpdate nonce bvh gvh =>
    obtain ⟨hn, hb, hg⟩ := he
    simp [EthereumEvent.borsh, dEthereumEvent, dUint_ok nonce hn,
      dKeccakHash_ok _ hb, dKeccakHash_ok _ hg]
  | NewContract name address =>
    obtain ⟨hs, ha⟩ := he
    simp [EthereumEvent.borsh, dEthereumEvent, dString_ok _ hs,
      dEthAddress_ok _ ha]
  | UpgradedContract name address =>
    obtain ⟨hs, ha⟩ := he
    simp [EthereumEvent.borsh, dEthereumEvent, dString_ok _ hs,
      dEthAddress_ok _ ha]
  | UpdateBridgeWhitelist nonce whitelist =>
    obtain ⟨hn, hw, hlen⟩ := he
    simp [EthereumEvent.borsh, dEthereumEvent, dUint_ok nonce hn,
      dVec_ok dTokenWhitelist TokenWhitelist.borsh whitelist
        (fun x hx r => dTokenWhitelist_ok x (hw x hx) r) hlen]

/-- Injectivity of the canonical encoding on well-formed events. -/
theorem borsh_injective (e1 e2 : EthereumEvent) (h1 : e1.Wf) (h2 : e2.Wf)
    (he : e1.borsh = e2.borsh) : e1 = e2 := by
  have d1 := dEthereumEvent_ok e1 h1 []
  have d2 := dEthereumEvent_ok e2 h2 []
  rw [he, d2] at d1
  simpa using d1.symm

/-- C2: the canonical encoding that `hash()` digests is a total function (so
deterministic: field-equal events give identical bytes) whose output on a
well-formed event determines the event — two events differing in any field,
element, or element order produce different bytes.  Moreover a `Uint` field is
encoded exactly as its 32-byte little-endian form, a string field as a length
prefix plus its UTF-8 bytes, and a `Vec` field as a length prefix plus its
elements in given order (the latter two hold definitionally via `stringBorsh`
and `vecBorsh` in `EthereumEvent.borsh`). -/
theorem claim_C2 :
    (∀ u : Uint, u.borsh = u.to_bytes) ∧
    (∀ s : List Nat, stringBorsh s = u32LE s.length ++ s) ∧
    (∀ e1 e2 : EthereumEvent, e1.Wf → e2.Wf →
      (e1.borsh = e2.borsh ↔ e1 = e2)) := by
  refine ⟨fun u => rfl, fun s => rfl, fun e1 e2 h1 h2 => ?_⟩
  constructor
  · exact borsh_injective e1 e2 h1 h2
  · intro h
    rw [h]

theorem claim_C2_witness :
    (EthereumEvent.NewContract (strBytes "bridge")
        DAI_ERC20_ETH_ADDRESS).borsh =
      (EthereumEvent.UpgradedContract (strBytes "bridge")
        DAI_ERC20_ETH_ADDRESS).borsh ↔
    EthereumEvent.NewContract (strBytes "bridge") DAI_ERC20_ETH_ADDRESS =
      EthereumEvent.UpgradedContract (strBytes "bridge")
        DAI_ERC20_ETH_ADDRESS :=
  claim_C2.2.2
    (EthereumEvent.NewContract (strBytes "bridge") DAI_ERC20_ETH_ADDRESS)
    (EthereumEvent.UpgradedContract (strBytes "bridge") DAI_ERC20_ETH_ADDRESS)
    (by decide) (by decide)

/-!
## Hash sensitivity to the nonce (claim C3)
-/

instance {ε α : Type} [DecidableEq ε] [DecidableEq α] :
    DecidableEq (Except ε α) := fun x y =>
  match x, y with
  | .ok a, .ok b =>
    if h : a = b then isTrue (by rw [h])
    else isFalse (fun hc => h (by injection hc))
  | .error a, .error b =>
    if h : a = b then isTrue (by rw [h])
    else isFalse (fun hc => h (by injection hc))
  | .ok _, .error _ => isFalse (fun hc => Except.noConfusion hc)
  | .error _, .ok _ => isFalse (fun hc => Except.noConfusion hc)

/-- Fixture `arbitrary_amount` from the source's testing module: `Amount::from(1_000)`. -/
def arbitrary_amount : Amount := ⟨1000⟩

/-- A concrete receiver for the source's `arbitrary_single_transfer`; the
native address is opaque, any value serves. -/
def arbitrary_receiver : Address := ⟨strBytes "receiver"⟩

/-- Fixture `arbitrary_single_transfer` from the source's testing module: a
`TransfersToNamada` event with one transfer of 1000 units of the DAI ERC20
asset to the given receiver. -/
def arbitrary_single_transfer (nonce : Uint) (receiver : Address) :
    EthereumEvent :=
  .TransfersToNamada nonce
    [⟨arbitrary_amount, DAI_ERC20_ETH_ADDRESS, receiver⟩]

theorem uintBorsh_inj (n n' : Uint) (hn : n.Wf) (hn' : n'.Wf)
    (h : n.borsh = n'.borsh) : n = n' := by
  have d1 := dUint_ok n hn []
  rw [h, dUint_ok n' hn' []] at d1
  simpa using d1.symm

theorem uintBorsh_length (n : Uint) : n.borsh.length = 32 := rfl

set_option maxRecDepth 100000 in
/-- C3: a `TransfersToNamada` event and the same event with the nonce
incremented by 1 never share the canonical bytes that `hash()` digests
(for any transfer batch), and concretely, hashing the event with nonce 123
and one arbitrary transfer, then the same event with nonce 124, yields two
different 32-byte digests. -/
theorem claim_C3 :
    (∀ (n n' : Uint) (ts : List TransferToNamada), n.Wf → n'.Wf →
      n'.value = n.value + 1 →
      (EthereumEvent.TransfersToNamada n ts).borsh ≠
        (EthereumEvent.TransfersToNamada n' ts).borsh) ∧
    (arbitrary_single_transfer (Uint.fromU64 123) arbitrary_receiver).hash ≠
      (arbitrary_single_transfer (Uint.fromU64 124) arbitrary_receiver).hash := by
  constructor
  · intro n n' ts hn hn' hv heq
    simp only [EthereumEvent.borsh, List.cons.injEq, true_and] at heq
    have h3 : n.borsh = n'.borsh :=
      (List.append_inj heq (by rw [uintBorsh_length, uintBorsh_length])).1
    have h4 : n = n' := uintBorsh_inj n n' hn hn' h3
    rw [h4] at hv
    omega
  · decide

theorem claim_C3_witness :
    (EthereumEvent.TransfersToNamada (Uint.fromU64 123) []).borsh ≠
      (EthereumEvent.TransfersToNamada (Uint.fromU64 124) []).borsh :=
  claim_C3.1 (Uint.fromU64 123) (Uint.fromU64 124) [] (by decide) (by decide)
    (by decide)
